import Mathlib

/-!
Verification development for the TopReco-Plot repository.

Shallow embedding, over exact rationals, of the two core components:

* the binned-statistics engine (`src/Utilities/.ipynb_checkpoints/Statistics-checkpoint.py`:
  `weighted_rms`, `weighted_mean`, `median`, `Q84Q16`, `weighted_variance`,
  `SplitInBins`, `ComputeStats`);
* the spin-correlation engine (`src/Utilities/SpinCorr.py`: `get_spincorr_vars`),
  over a carrier that tracks IEEE non-finite values explicitly.

Machine floating point is modelled by exact rational arithmetic; where the source
relies on `numpy`'s IEEE semantics for non-finite values (NaN/inf) the carrier
`NF` below models a number as `some q` (a finite value) or `none` (a non-finite
or indeterminate value), with the propagation rules of IEEE ufuncs.
-/

namespace TopReco

/-! ## Binned statistics engine (Statistics-checkpoint.py) -/

/-- Embeds the insertion step of an ascending sort (`np.sort` on the values). -/
def insertSorted (a : ℚ) : List ℚ → List ℚ
  | [] => [a]
  | b :: t => if a ≤ b then a :: b :: t else b :: insertSorted a t

/-- Embeds `np.sort`: ascending sort of the array. -/
def sortQ (l : List ℚ) : List ℚ := l.foldr insertSorted []

/-- Embeds `np.percentile(a, q)` with the default linear interpolation between
order statistics: with `n = len(a)` and `h = q*(n-1)/100`, the result is
`s[floor h] + (h - floor h) * (s[ceil h] - s[floor h])` on the sorted array `s`.
(`np.percentile` raises on an empty array; the `n = 0` branch is unreachable in
`ComputeStats`, which guards every call by a count of at least 5.) -/
def percentileQ (l : List ℚ) (q : ℚ) : ℚ :=
  let s := sortQ l
  let n := s.length
  if n = 0 then 0
  else
    let h : ℚ := q * ((n : ℚ) - 1) / 100
    let lo := (Int.floor h).toNat
    let hi := (Int.ceil h).toNat
    let a := s.getD lo 0
    let b := s.getD hi 0
    a + (h - ((Int.floor h : ℤ) : ℚ)) * (b - a)

/-- Embeds `median(x)`: sort, then 50th percentile. -/
def medianQ (x : List ℚ) : ℚ := percentileQ (sortQ x) 50

/-- Embeds `Q84Q16(x)`: sort, then difference of the 84th and 16th percentiles. -/
def Q84Q16 (x : List ℚ) : ℚ := percentileQ (sortQ x) 84 - percentileQ (sortQ x) 16

/-- Embeds `weighted_mean(x, weights)`: returns `0.0` when the total weight is
zero, otherwise `np.average(x, weights) = Σ wᵢ xᵢ / Σ wᵢ`. -/
def weighted_mean (x weights : List ℚ) : ℚ :=
  if weights.sum = 0 then 0
  else ((x.zip weights).map (fun p => p.2 * p.1)).sum / weights.sum

/-- Embeds `weighted_variance(x, weights)`: returns `0.0` when the total weight
is zero, otherwise the weighted second central moment `Σ wᵢ (xᵢ - avg)² / Σ wᵢ`
with `avg = Σ wᵢ xᵢ / Σ wᵢ`. -/
def weighted_variance (x weights : List ℚ) : ℚ :=
  if weights.sum = 0 then 0
  else
    let avg := ((x.zip weights).map (fun p => p.2 * p.1)).sum / weights.sum
    ((x.zip weights).map (fun p => p.2 * (p.1 - avg) ^ 2)).sum / weights.sum

/-- Embeds `weighted_rms(x, weights)`: returns `0.0` when the total weight is
zero, otherwise `sqrt(Σ wᵢ xᵢ² / Σ wᵢ)`.  The square root (irrational in
general) is passed in as the function `sq`; no settled claim depends on its
values, only on the zero-total-weight guard that shortcuts it. -/
def weighted_rms (sq : ℚ → ℚ) (x weights : List ℚ) : ℚ :=
  if weights.sum = 0 then 0
  else sq (((x.zip weights).map (fun p => p.2 * p.1 ^ 2)).sum / weights.sum)

/-- The `bins` argument of `SplitInBins`/`ComputeStats`: either an integer bin
count (`isinstance(bins, int)`) or an explicit list of bin edges. -/
inductive BinSpec where
  | count (n : ℕ)
  | edges (es : List ℚ)

/-- Embeds `np.amin` (total here; `np.amin` raises on an empty array, so
theorems about nonempty-input behaviour carry a nonemptiness hypothesis). -/
def listMin : List ℚ → ℚ
  | [] => 0
  | a :: t => t.foldl min a

/-- Embeds `np.amax` (total here; see `listMin`). -/
def listMax : List ℚ → ℚ
  | [] => 0
  | a :: t => t.foldl max a

/-- Embeds `np.linspace(a, b, num)` (with the default `endpoint=True`):
`num` evenly spaced points from `a` to `b`; a single point is `[a]`. -/
def linspaceQ (a b : ℚ) (num : ℕ) : List ℚ :=
  if num = 0 then []
  else if num = 1 then [a]
  else (List.range num).map (fun i : ℕ => a + (i : ℚ) * (b - a) / ((num : ℚ) - 1))

/-- Embeds the bin-membership test of line 95 of `SplitInBins`:
`(x >= bins[index]) & (x < bins[index+1])`. -/
def binMask (lo hi v : ℚ) : Bool := decide (lo ≤ v) && decide (v < hi)

/-- Embeds the fancy-indexing `data[bin_mask]`: the `data` entries whose
parallel binning value passes the mask. -/
def maskFilter (x d : List ℚ) (lo hi : ℚ) : List ℚ :=
  ((x.zip d).filter (fun p => binMask lo hi p.1)).map (fun p => p.2)

/-- Embeds `bin_midpoints = (bins[:-1] + bins[1:]) / 2`, keeping each midpoint
together with its pair of adjacent edges (the loop of `SplitInBins` consumes
exactly these triples). -/
def midEdges (es : List ℚ) : List (ℚ × ℚ × ℚ) :=
  (es.zip es.tail).map (fun e => ((e.1 + e.2) / 2, e.1, e.2))

/-- One entry of the `binned_data` dictionary: the midpoint key, the binned
data values, and the binned weights. -/
abbrev BinEntry := ℚ × List ℚ × List ℚ

/-- Embeds the Python dictionary assignment `binned_data[midpoint] = {...}`:
inserting under an existing key overwrites in place (keeping the key's original
position, as Python dicts do); a fresh key is appended. -/
def upsert (l : List BinEntry) (k : ℚ) (v : List ℚ × List ℚ) : List BinEntry :=
  if l.any (fun p => decide (p.1 = k)) then
    l.map (fun p => if p.1 = k then (k, v.1, v.2) else p)
  else l ++ [(k, v.1, v.2)]

/-- Embeds `SplitInBins(data, x, weight, bins)`: if `bins` is an integer, the
edges are `np.linspace(float(math.floor(min(x))), float(math.ceil(max(x))), bins)`;
then for each midpoint, the data and weights whose binning value lies in the
half-open interval between the adjacent edges are stored under the midpoint
key.  Returns the dictionary (as an ordered key/value list) and the edges. -/
def SplitInBins (data x weight : List ℚ) (bins : BinSpec) :
    List BinEntry × List ℚ :=
  let edges :=
    match bins with
    | .count n => linspaceQ ((Int.floor (listMin x) : ℤ) : ℚ) ((Int.ceil (listMax x) : ℤ) : ℚ) n
    | .edges es => es
  let entries := (midEdges edges).foldl
    (fun acc m => upsert acc m.1 (maskFilter x data m.2.1 m.2.2, maskFilter x weight m.2.1 m.2.2)) []
  (entries, edges)

/-- The result dictionary of `ComputeStats`: five statistics arrays plus the
array of bin midpoints, all of one common length. -/
structure StatsResult where
  bins : List ℚ
  q84q16 : List ℚ
  mean : List ℚ
  median : List ℚ
  variance : List ℚ
  rms : List ℚ
deriving DecidableEq

/-- Embeds `ComputeStats(x, y, weight, bins)`: split `y` into bins by `x`,
then per bin append the midpoint to `bins` and either five zeros (when the bin
holds fewer than 5 events) or the five statistics.  `sq` is the square-root
function used by `weighted_rms` (see there). -/
def ComputeStats (sq : ℚ → ℚ) (x y weight : List ℚ) (bins : BinSpec) : StatsResult :=
  let entries := (SplitInBins y x weight bins).1
  { bins := entries.map (fun e => e.1)
    q84q16 := entries.map (fun e => if e.2.1.length < 5 then 0 else Q84Q16 e.2.1)
    mean := entries.map (fun e => if e.2.1.length < 5 then 0 else weighted_mean e.2.1 e.2.2)
    median := entries.map (fun e => if e.2.1.length < 5 then 0 else medianQ e.2.1)
    variance := entries.map (fun e => if e.2.1.length < 5 then 0 else weighted_variance e.2.1 e.2.2)
    rms := entries.map (fun e => if e.2.1.length < 5 then 0 else weighted_rms sq e.2.1 e.2.2) }

/-! ## Spin-correlation engine (SpinCorr.py)

The engine works on IEEE doubles via `numpy` and the scikit-hep `vector`
package.  We model a double as `NF`: either `fin q` (a finite value, exact
rational `q`) or `nan` (a non-finite or indeterminate value — IEEE NaN or
infinity; the claims settled here only distinguish finite from non-finite).
Arithmetic propagates `nan` exactly as IEEE ufuncs propagate non-finite
values along the code paths analysed here; a division by zero yields `nan`
(in IEEE it yields NaN or an infinity, in either case a non-finite value).
Ordered comparisons with `nan` are `false`, as IEEE comparisons with NaN are.
-/

/-- A `numpy` double: a finite (exact rational) value or a non-finite /
indeterminate value. -/
structure NF where
  val : Option ℚ
deriving DecidableEq

/-- The non-finite / indeterminate element (NaN or an infinity). -/
def NF.nan : NF := ⟨none⟩

/-- A finite value. -/
def NF.fin (q : ℚ) : NF := ⟨some q⟩

def NF.add : NF → NF → NF
  | ⟨some a⟩, ⟨some b⟩ => ⟨some (a + b)⟩
  | _, _ => ⟨none⟩

def NF.sub : NF → NF → NF
  | ⟨some a⟩, ⟨some b⟩ => ⟨some (a - b)⟩
  | _, _ => ⟨none⟩

def NF.mul : NF → NF → NF
  | ⟨some a⟩, ⟨some b⟩ => ⟨some (a * b)⟩
  | _, _ => ⟨none⟩

/-- Division; a zero divisor yields the non-finite element (`0/0` is NaN,
`x/0` is an infinity — both non-finite). -/
def NF.div : NF → NF → NF
  | ⟨some a⟩, ⟨some b⟩ => if b = 0 then ⟨none⟩ else ⟨some (a / b)⟩
  | _, _ => ⟨none⟩

def NF.neg : NF → NF
  | ⟨some a⟩ => ⟨some (-a)⟩
  | _ => ⟨none⟩

/-- Embeds `np.abs`. -/
def NF.abs : NF → NF
  | ⟨some a⟩ => ⟨some |a|⟩
  | _ => ⟨none⟩

/-- Embeds `np.sign` (`np.sign(nan)` is NaN). -/
def NF.sign : NF → NF
  | ⟨some a⟩ => ⟨some (if a < 0 then -1 else if 0 < a then 1 else 0)⟩
  | _ => ⟨none⟩

/-- Embeds the `<` comparison of doubles: any comparison with a non-finite
indeterminate value is `false` (as IEEE comparisons with NaN are). -/
def NF.lt : NF → NF → Bool
  | ⟨some a⟩, ⟨some b⟩ => decide (a < b)
  | _, _ => false

/-- Embeds (scalar-wise) `np.where(c, a, b)`. -/
def NF.select (c : Bool) (a b : NF) : NF := if c then a else b

instance : Add NF := ⟨NF.add⟩
instance : Sub NF := ⟨NF.sub⟩
instance : Mul NF := ⟨NF.mul⟩
instance : Div NF := ⟨NF.div⟩
instance : Neg NF := ⟨NF.neg⟩

/-- The transcendental functions that `SpinCorr.py` uses through `numpy` and
the `vector` package (`sqrt`, `sin`, `cos`, `arccos`, `atan2`).  They are not
part of this repository, so the engine is parametrised over them; every
theorem below holds either for all choices or under the stated propagation
hypotheses (each of which holds for the IEEE functions). -/
structure TransOps where
  sqrt : NF → NF
  sin : NF → NF
  cos : NF → NF
  acos : NF → NF
  atan2 : NF → NF → NF

/-- A four-momentum, as the `vector` package `Momentum4D` (components
`px, py, pz, E`; the code may construct it from `pt/eta/phi/mass`, which the
package converts to these Cartesian components). -/
structure V4 where
  px : NF
  py : NF
  pz : NF
  E : NF
deriving DecidableEq

/-- A spatial 3-vector (`vector.obj(x=..., y=..., z=...)`). -/
structure V3 where
  x : NF
  y : NF
  z : NF
deriving DecidableEq

/-- Embeds `tops + tbars`: componentwise sum of four-vectors. -/
def V4.add (a b : V4) : V4 := ⟨a.px + b.px, a.py + b.py, a.pz + b.pz, a.E + b.E⟩

/-- Embeds `.to_xyz()`: the spatial part. -/
def V4.toXYZ (v : V4) : V3 := ⟨v.px, v.py, v.pz⟩

def V3.dot (a b : V3) : NF := a.x * b.x + a.y * b.y + a.z * b.z

/-- Embeds the 3-vector cross product `p_axis.cross(k_axis)`. -/
def V3.cross (a b : V3) : V3 :=
  ⟨a.y * b.z - a.z * b.y, a.z * b.x - a.x * b.z, a.x * b.y - a.y * b.x⟩

/-- Scalar multiple of a 3-vector (`axis_coeff * (...)`, `-1 * k_axis`). -/
def V3.smul (c : NF) (a : V3) : V3 := ⟨c * a.x, c * a.y, c * a.z⟩

def V3.sub (a b : V3) : V3 := ⟨a.x - b.x, a.y - b.y, a.z - b.z⟩

/-- Spatial norm `|p| = sqrt(x² + y² + z²)`. -/
def V3.norm (ops : TransOps) (a : V3) : NF := ops.sqrt (a.x * a.x + a.y * a.y + a.z * a.z)

/-- Embeds `.unit()`: the unit direction `(x, y, z)/|p|`.  Modelled from the
spec (§4.1 `toSpatialUnitVector`): the `vector` package is not part of the
repository; the spec specifies `(px,py,pz)/|p|`, with no guard at `|p| = 0`
(the division then yields a non-finite value). -/
def V3.unit (ops : TransOps) (a : V3) : V3 :=
  ⟨a.x / V3.norm ops a, a.y / V3.norm ops a, a.z / V3.norm ops a⟩

/-- Embeds `.theta`: the polar angle `atan2(sqrt(x² + y²), z)` of the
`vector` package (the angle between the direction and the z axis). -/
def V3.theta (ops : TransOps) (a : V3) : NF :=
  ops.atan2 (ops.sqrt (a.x * a.x + a.y * a.y)) a.z

/-- Domain clamp of a cosine to `[-1, 1]` (spec §4.1 `angleBetween`); a
non-finite value fails both comparisons and passes through unchanged. -/
def clampUnit (v : NF) : NF :=
  NF.select (NF.lt v (NF.fin (-1))) (NF.fin (-1)) (NF.select (NF.lt (NF.fin 1) v) (NF.fin 1) v)

/-- Embeds `.deltaangle(...)` between two spatial directions.  Modelled from
the spec (§4.1 `angleBetween`): `arccos` of the normalised dot product,
domain-clamped to `[-1, 1]`. -/
def angleBetween (ops : TransOps) (a b : V3) : NF :=
  ops.acos (clampUnit (V3.dot a b / (V3.norm ops a * V3.norm ops b)))

/-- `momentum.deltaangle(axis)` — spatial angle between a four-momentum and
a 3-vector axis. -/
def V4.deltaangle (ops : TransOps) (a : V4) (b : V3) : NF :=
  angleBetween ops a.toXYZ b

/-- `momentum.deltaangle(momentum)` — spatial angle between two
four-momenta. -/
def V4.deltaangle4 (ops : TransOps) (a b : V4) : NF :=
  angleBetween ops a.toXYZ b.toXYZ

/-- Embeds `.boostCM_of(frame)`.  Modelled from the spec (§4.1
`boostToRestFrameOf`): the standard Lorentz boost by minus the frame's
velocity `β = (px,py,pz)/E`; with `b² = β·β` and `γ = 1/sqrt(1-b²)` the
boosted vector is `p + ((γ-1)(p·β)/b² - γE)β` with energy `γ(E - p·β)`,
the identity when the frame velocity is zero. -/
def boostToRestFrameOf (ops : TransOps) (v frame : V4) : V4 :=
  let bx := frame.px / frame.E
  let by' := frame.py / frame.E
  let bz := frame.pz / frame.E
  let b2 := bx * bx + by' * by' + bz * bz
  if b2 = NF.fin 0 then v
  else
    let gamma := NF.fin 1 / ops.sqrt (NF.fin 1 - b2)
    let bp := bx * v.px + by' * v.py + bz * v.pz
    let k := (gamma - NF.fin 1) * bp / b2 - gamma * v.E
    ⟨v.px + k * bx, v.py + k * by', v.pz + k * bz, gamma * (v.E - bp)⟩

/-- Line 42: `ttbar_frame = tops + tbars`. -/
def ttbarFrame (tops tbars : V4) : V4 := V4.add tops tbars

/-- Line 43: `boosted_tops = tops.boostCM_of(ttbar_frame)`. -/
def boostedTops (ops : TransOps) (tops tbars : V4) : V4 :=
  boostToRestFrameOf ops tops (ttbarFrame tops tbars)

/-- Line 44: `boosted_tbars = tbars.boostCM_of(ttbar_frame)`. -/
def boostedTbars (ops : TransOps) (tops tbars : V4) : V4 :=
  boostToRestFrameOf ops tbars (ttbarFrame tops tbars)

/-- Lines 46-47: the lepton is boosted into the ttbar frame, and that result
is boosted again into the frame of the already-boosted antitop. -/
def boostedLs (ops : TransOps) (tops tbars ls : V4) : V4 :=
  boostToRestFrameOf ops (boostToRestFrameOf ops ls (ttbarFrame tops tbars))
    (boostedTbars ops tops tbars)

/-- Lines 49-50: the antilepton is boosted into the ttbar frame, then into
the frame of the already-boosted top. -/
def boostedLbars (ops : TransOps) (tops tbars lbars : V4) : V4 :=
  boostToRestFrameOf ops (boostToRestFrameOf ops lbars (ttbarFrame tops tbars))
    (boostedTops ops tops tbars)

/-- Line 52: `p_axis = vector.obj(x=0, y=0, z=1)` — the proton axis. -/
def pAxis : V3 := ⟨NF.fin 0, NF.fin 0, NF.fin 1⟩

/-- Line 53: `k_axis = boosted_tops.to_xyz().unit()`. -/
def kAxis (ops : TransOps) (tops tbars : V4) : V3 :=
  V3.unit ops (V4.toXYZ (boostedTops ops tops tbars))

/-- Line 54: `scattering_angle = k_axis.theta`. -/
def scatteringAngle (ops : TransOps) (tops tbars : V4) : NF :=
  V3.theta ops (kAxis ops tops tbars)

/-- The clamp constant `1e-9` of line 57. -/
def eps9 : ℚ := 1 / 1000000000

/-- Line 57: `np.where(np.abs(sin_scat_angle) < 1e-9, 1e-9, sin_scat_angle)`. -/
def clampSinScat (s : NF) : NF :=
  NF.select (NF.lt (NF.abs s) (NF.fin eps9)) (NF.fin eps9) s

/-- Line 55: `sin_scat_angle = np.sin(scattering_angle)`. -/
def sinScatAngle (ops : TransOps) (tops tbars : V4) : NF :=
  ops.sin (scatteringAngle ops tops tbars)

/-- Line 57: the clamped sine of the scattering angle. -/
def sinScatClamped (ops : TransOps) (tops tbars : V4) : NF :=
  clampSinScat (sinScatAngle ops tops tbars)

/-- Line 58: `axis_coeff = np.sign(np.cos(scattering_angle)) / np.abs(sin_scat_angle)`. -/
def axisCoeff (ops : TransOps) (tops tbars : V4) : NF :=
  NF.sign (ops.cos (scatteringAngle ops tops tbars)) / NF.abs (sinScatClamped ops tops tbars)

/-- Line 60: `r_axis = axis_coeff * (p_axis - (k_axis * cos(scattering_angle)))`. -/
def rAxis (ops : TransOps) (tops tbars : V4) : V3 :=
  V3.smul (axisCoeff ops tops tbars)
    (V3.sub pAxis (V3.smul (ops.cos (scatteringAngle ops tops tbars)) (kAxis ops tops tbars)))

/-- Line 61: `n_axis = axis_coeff * p_axis.cross(k_axis)`. -/
def nAxis (ops : TransOps) (tops tbars : V4) : V3 :=
  V3.smul (axisCoeff ops tops tbars) (V3.cross pAxis (kAxis ops tops tbars))

/-- Line 65: `ll_cHel = np.cos(boosted_lbars.deltaangle(boosted_ls))`. -/
def ll_cHel (ops : TransOps) (tops tbars ls lbars : V4) : NF :=
  ops.cos (V4.deltaangle4 ops (boostedLbars ops tops tbars lbars) (boostedLs ops tops tbars ls))

/-- Line 67: `b1k = np.cos(boosted_lbars.deltaangle(k_axis))`. -/
def b1k (ops : TransOps) (tops tbars lbars : V4) : NF :=
  ops.cos (V4.deltaangle ops (boostedLbars ops tops tbars lbars) (kAxis ops tops tbars))

/-- Line 68: `b1r = np.cos(boosted_lbars.deltaangle(r_axis))`. -/
def b1r (ops : TransOps) (tops tbars lbars : V4) : NF :=
  ops.cos (V4.deltaangle ops (boostedLbars ops tops tbars lbars) (rAxis ops tops tbars))

/-- Line 69: `b1n = np.cos(boosted_lbars.deltaangle(n_axis))`. -/
def b1n (ops : TransOps) (tops tbars lbars : V4) : NF :=
  ops.cos (V4.deltaangle ops (boostedLbars ops tops tbars lbars) (nAxis ops tops tbars))

/-- Line 70: `b2k = np.cos(boosted_ls.deltaangle(-1 * k_axis))`. -/
def b2k (ops : TransOps) (tops tbars ls : V4) : NF :=
  ops.cos (V4.deltaangle ops (boostedLs ops tops tbars ls)
    (V3.smul (NF.fin (-1)) (kAxis ops tops tbars)))

/-- Line 71: `b2r = np.cos(boosted_ls.deltaangle(-1 * r_axis))`. -/
def b2r (ops : TransOps) (tops tbars ls : V4) : NF :=
  ops.cos (V4.deltaangle ops (boostedLs ops tops tbars ls)
    (V3.smul (NF.fin (-1)) (rAxis ops tops tbars)))

/-- Line 72: `b2n = np.cos(boosted_ls.deltaangle(-1 * n_axis))`. -/
def b2n (ops : TransOps) (tops tbars ls : V4) : NF :=
  ops.cos (V4.deltaangle ops (boostedLs ops tops tbars ls)
    (V3.smul (NF.fin (-1)) (nAxis ops tops tbars)))

/-- The 18-entry observable dictionary returned by `get_spincorr_vars`. -/
structure SpinCorrVars where
  ll_cHel : NF
  b1k : NF
  b1r : NF
  b1n : NF
  b2k : NF
  b2r : NF
  b2n : NF
  c_kk : NF
  c_rr : NF
  c_nn : NF
  c_rk : NF
  c_kn : NF
  c_nr : NF
  c_kr : NF
  c_rn : NF
  c_nk : NF
  c_han : NF
  c_hel : NF
deriving DecidableEq

/-- Embeds `get_spincorr_vars(tops, tbars, ls, lbars)` (per event; the Python
function is this computation vectorised elementwise over the event batch):
lines 63-86 assemble the observable dictionary from the definitions above. -/
def get_spincorr_vars (ops : TransOps) (tops tbars ls lbars : V4) : SpinCorrVars :=
  { ll_cHel := ll_cHel ops tops tbars ls lbars
    b1k := b1k ops tops tbars lbars
    b1r := b1r ops tops tbars lbars
    b1n := b1n ops tops tbars lbars
    b2k := b2k ops tops tbars ls
    b2r := b2r ops tops tbars ls
    b2n := b2n ops tops tbars ls
    c_kk := b1k ops tops tbars lbars * b2k ops tops tbars ls
    c_rr := b1r ops tops tbars lbars * b2r ops tops tbars ls
    c_nn := b1n ops tops tbars lbars * b2n ops tops tbars ls
    c_rk := b1r ops tops tbars lbars * b2k ops tops tbars ls
    c_kn := b1k ops tops tbars lbars * b2n ops tops tbars ls
    c_nr := b1n ops tops tbars lbars * b2r ops tops tbars ls
    c_kr := b1k ops tops tbars lbars * b2r ops tops tbars ls
    c_rn := b1r ops tops tbars lbars * b2n ops tops tbars ls
    c_nk := b1n ops tops tbars lbars * b2k ops tops tbars ls
    c_han := b1k ops tops tbars lbars * b2k ops tops tbars ls
              - b1r ops tops tbars lbars * b2r ops tops tbars ls
              - b1n ops tops tbars lbars * b2n ops tops tbars ls
    c_hel := -(b1k ops tops tbars lbars * b2k ops tops tbars ls)
              - b1r ops tops tbars lbars * b2r ops tops tbars ls
              - b1n ops tops tbars lbars * b2n ops tops tbars ls }

/-- Exact square root on the finite values: `sqrt` of a rational with a
rational square root is that root; any other argument (a negative number, a
rational with an irrational root, or a non-finite input) has no exactly
representable finite value and is mapped to the indeterminate element.
Modelled from the spec: `np.sqrt` is external to the repository; the
theorems below evaluate this function only at exactly representable points
and at non-finite inputs (which `np.sqrt` propagates). -/
def ratSqrt (q : ℚ) : Option ℚ :=
  if q < 0 then none
  else
    let n := q.num.toNat
    let d := q.den
    if Nat.sqrt n * Nat.sqrt n = n ∧ Nat.sqrt d * Nat.sqrt d = d then
      some ((Nat.sqrt n : ℚ) / (Nat.sqrt d : ℚ))
    else none

def sqrtNF : NF → NF
  | ⟨some q⟩ => ⟨ratSqrt q⟩
  | _ => ⟨none⟩

/-- Exact sine: `sin 0 = 0`; other finite points have no exactly
representable value; non-finite inputs propagate.  Modelled from the spec
(see `ratSqrt`). -/
def sinNF : NF → NF
  | ⟨some q⟩ => if q = 0 then ⟨some 0⟩ else ⟨none⟩
  | _ => ⟨none⟩

/-- Exact cosine: `cos 0 = 1`; as `sinNF` otherwise. -/
def cosNF : NF → NF
  | ⟨some q⟩ => if q = 0 then ⟨some 1⟩ else ⟨none⟩
  | _ => ⟨none⟩

/-- Exact arccosine: `acos 1 = 0`; as `sinNF` otherwise. -/
def acosNF : NF → NF
  | ⟨some q⟩ => if q = 1 then ⟨some 0⟩ else ⟨none⟩
  | _ => ⟨none⟩

/-- Exact `atan2`: `atan2(0, z) = 0` for `z > 0`; other finite points are
either irrational or (at the origin) IEEE-defined but never reached here;
non-finite inputs propagate.  Modelled from the spec (see `ratSqrt`). -/
def atan2NF : NF → NF → NF
  | ⟨some r⟩, ⟨some z⟩ => if r = 0 ∧ 0 < z then ⟨some 0⟩ else ⟨none⟩
  | _, _ => ⟨none⟩

/-- The exact-point instantiation of the transcendental functions, used to
evaluate the engine on concrete inputs. -/
def nanOps : TransOps := ⟨sqrtNF, sinNF, cosNF, acosNF, atan2NF⟩

/-- A particle at rest: zero spatial momentum, energy `m`. -/
def restV4 (m : ℚ) : V4 := ⟨NF.fin 0, NF.fin 0, NF.fin 0, NF.fin m⟩

/-! ### Propagation lemmas for the non-finite element -/

@[simp] lemma NF.add_nan (a : NF) : a + NF.nan = NF.nan := by
  obtain ⟨_ | q⟩ := a <;> rfl

@[simp] lemma NF.nan_add (a : NF) : NF.nan + a = NF.nan := by
  obtain ⟨_ | q⟩ := a <;> rfl

@[simp] lemma NF.sub_nan (a : NF) : a - NF.nan = NF.nan := by
  obtain ⟨_ | q⟩ := a <;> rfl

@[simp] lemma NF.nan_sub (a : NF) : NF.nan - a = NF.nan := by
  obtain ⟨_ | q⟩ := a <;> rfl

@[simp] lemma NF.mul_nan (a : NF) : a * NF.nan = NF.nan := by
  obtain ⟨_ | q⟩ := a <;> rfl

@[simp] lemma NF.nan_mul (a : NF) : NF.nan * a = NF.nan := by
  obtain ⟨_ | q⟩ := a <;> rfl

@[simp] lemma NF.div_nan (a : NF) : a / NF.nan = NF.nan := by
  obtain ⟨_ | q⟩ := a <;> rfl

@[simp] lemma NF.nan_div (a : NF) : NF.nan / a = NF.nan := by
  obtain ⟨_ | q⟩ := a <;> rfl

@[simp] lemma NF.neg_nan : -NF.nan = NF.nan := rfl

@[simp] lemma NF.abs_nan : NF.abs NF.nan = NF.nan := rfl

@[simp] lemma NF.sign_nan : NF.sign NF.nan = NF.nan := rfl

@[simp] lemma NF.lt_nan (a : NF) : NF.lt a NF.nan = false := by
  obtain ⟨_ | q⟩ := a <;> rfl

@[simp] lemma NF.nan_lt (a : NF) : NF.lt NF.nan a = false := by
  obtain ⟨_ | q⟩ := a <;> rfl

@[simp] lemma NF.fin_add_fin (a b : ℚ) : NF.fin a + NF.fin b = NF.fin (a + b) := rfl

@[simp] lemma NF.fin_sub_fin (a b : ℚ) : NF.fin a - NF.fin b = NF.fin (a - b) := rfl

@[simp] lemma NF.fin_mul_fin (a b : ℚ) : NF.fin a * NF.fin b = NF.fin (a * b) := rfl

@[simp] lemma NF.fin_div_fin (a b : ℚ) :
    NF.fin a / NF.fin b = if b = 0 then NF.nan else NF.fin (a / b) := rfl

@[simp] lemma NF.div_fin_zero (a : NF) : a / NF.fin 0 = NF.nan := by
  obtain ⟨_ | q⟩ := a <;> rfl

@[simp] lemma NF.abs_fin (a : ℚ) : NF.abs (NF.fin a) = NF.fin |a| := rfl

lemma NF.fin_div_fin_ne (a b : ℚ) (hb : b ≠ 0) : NF.fin a / NF.fin b = NF.fin (a / b) := by
  show NF.div _ _ = _
  simp [NF.div, NF.fin, hb]

lemma NF.sign_fin (a : ℚ) :
    NF.sign (NF.fin a) = NF.fin (if a < 0 then -1 else if 0 < a then 1 else 0) := rfl

@[simp] lemma NF.lt_fin_fin (a b : ℚ) : NF.lt (NF.fin a) (NF.fin b) = decide (a < b) := rfl

@[simp] lemma clampUnit_nan : clampUnit NF.nan = NF.nan := rfl

@[simp] lemma clampSinScat_nan : clampSinScat NF.nan = NF.nan := rfl

/-- The all-non-finite 3-vector. -/
def nanV3 : V3 := ⟨NF.nan, NF.nan, NF.nan⟩

@[simp] lemma V3.smul_nan (a : V3) : V3.smul NF.nan a = nanV3 := by
  simp [V3.smul, nanV3]

@[simp] lemma V3.smul_nanV3 (c : NF) : V3.smul c nanV3 = nanV3 := by
  simp [V3.smul, nanV3]

@[simp] lemma V3.dot_nanV3 (a : V3) : V3.dot a nanV3 = NF.nan := by
  simp [V3.dot, nanV3]

@[simp] lemma V3.sub_nanV3 (a : V3) : V3.sub a nanV3 = nanV3 := by
  simp [V3.sub, nanV3]

@[simp] lemma V3.cross_nanV3 (a : V3) : V3.cross a nanV3 = nanV3 := by
  simp [V3.cross, nanV3]

/-! ### The zero-momentum edge case of the engine

When the boosted top has zero spatial momentum, `unit()` divides `0` by
`|p| = 0` componentwise and the `k` axis is entirely non-finite; the
non-finiteness then propagates (the sine clamp of line 57 compares `false`
on a non-finite value and leaves it in place) into every `k/r/n`-based
observable.  The hypotheses on `ops` say that the transcendental functions
propagate non-finite inputs and take `sqrt 0` to `0`; the IEEE functions
satisfy all of them. -/

lemma kAxis_of_zero_momentum (ops : TransOps) (tops tbars : V4)
    (hsq0 : ops.sqrt (NF.fin 0) = NF.fin 0)
    (hx : (boostedTops ops tops tbars).px = NF.fin 0)
    (hy : (boostedTops ops tops tbars).py = NF.fin 0)
    (hz : (boostedTops ops tops tbars).pz = NF.fin 0) :
    kAxis ops tops tbars = nanV3 := by
  unfold kAxis V3.unit V3.norm V4.toXYZ
  rw [hx, hy, hz]
  norm_num [hsq0, nanV3]

lemma scatteringAngle_of_zero_momentum (ops : TransOps) (tops tbars : V4)
    (hsq0 : ops.sqrt (NF.fin 0) = NF.fin 0)
    (hsqn : ops.sqrt NF.nan = NF.nan)
    (hatann : ops.atan2 NF.nan NF.nan = NF.nan)
    (hx : (boostedTops ops tops tbars).px = NF.fin 0)
    (hy : (boostedTops ops tops tbars).py = NF.fin 0)
    (hz : (boostedTops ops tops tbars).pz = NF.fin 0) :
    scatteringAngle ops tops tbars = NF.nan := by
  unfold scatteringAngle V3.theta
  rw [kAxis_of_zero_momentum ops tops tbars hsq0 hx hy hz]
  simp [nanV3, hsqn, hatann]

lemma axisCoeff_of_zero_momentum (ops : TransOps) (tops tbars : V4)
    (hsq0 : ops.sqrt (NF.fin 0) = NF.fin 0)
    (hsqn : ops.sqrt NF.nan = NF.nan)
    (hsinn : ops.sin NF.nan = NF.nan)
    (hcosn : ops.cos NF.nan = NF.nan)
    (hatann : ops.atan2 NF.nan NF.nan = NF.nan)
    (hx : (boostedTops ops tops tbars).px = NF.fin 0)
    (hy : (boostedTops ops tops tbars).py = NF.fin 0)
    (hz : (boostedTops ops tops tbars).pz = NF.fin 0) :
    axisCoeff ops tops tbars = NF.nan := by
  unfold axisCoeff sinScatClamped sinScatAngle
  rw [scatteringAngle_of_zero_momentum ops tops tbars hsq0 hsqn hatann hx hy hz]
  simp [hsinn, hcosn]

lemma rAxis_of_zero_momentum (ops : TransOps) (tops tbars : V4)
    (hsq0 : ops.sqrt (NF.fin 0) = NF.fin 0)
    (hsqn : ops.sqrt NF.nan = NF.nan)
    (hsinn : ops.sin NF.nan = NF.nan)
    (hcosn : ops.cos NF.nan = NF.nan)
    (hatann : ops.atan2 NF.nan NF.nan = NF.nan)
    (hx : (boostedTops ops tops tbars).px = NF.fin 0)
    (hy : (boostedTops ops tops tbars).py = NF.fin 0)
    (hz : (boostedTops ops tops tbars).pz = NF.fin 0) :
    rAxis ops tops tbars = nanV3 := by
  unfold rAxis
  rw [axisCoeff_of_zero_momentum ops tops tbars hsq0 hsqn hsinn hcosn hatann hx hy hz]
  simp

lemma nAxis_of_zero_momentum (ops : TransOps) (tops tbars : V4)
    (hsq0 : ops.sqrt (NF.fin 0) = NF.fin 0)
    (hsqn : ops.sqrt NF.nan = NF.nan)
    (hsinn : ops.sin NF.nan = NF.nan)
    (hcosn : ops.cos NF.nan = NF.nan)
    (hatann : ops.atan2 NF.nan NF.nan = NF.nan)
    (hx : (boostedTops ops tops tbars).px = NF.fin 0)
    (hy : (boostedTops ops tops tbars).py = NF.fin 0)
    (hz : (boostedTops ops tops tbars).pz = NF.fin 0) :
    nAxis ops tops tbars = nanV3 := by
  unfold nAxis
  rw [axisCoeff_of_zero_momentum ops tops tbars hsq0 hsqn hsinn hcosn hatann hx hy hz]
  simp

lemma cos_deltaangle_nanV3 (ops : TransOps) (a : V4)
    (hsqn : ops.sqrt NF.nan = NF.nan)
    (hcosn : ops.cos NF.nan = NF.nan)
    (hacosn : ops.acos NF.nan = NF.nan) :
    ops.cos (V4.deltaangle ops a nanV3) = NF.nan := by
  unfold V4.deltaangle angleBetween V3.norm
  rw [show V3.dot (V4.toXYZ a) nanV3 = NF.nan from by simp]
  simp [nanV3, hsqn, hacosn, hcosn]

/-- The bundled zero-momentum result: with a zero-spatial-momentum boosted
top, all six analyzers, all nine correlations and both derived combinations
are non-finite. -/
lemma spincorr_nan_of_zero_momentum (ops : TransOps) (tops tbars ls lbars : V4)
    (hsq0 : ops.sqrt (NF.fin 0) = NF.fin 0)
    (hsqn : ops.sqrt NF.nan = NF.nan)
    (hsinn : ops.sin NF.nan = NF.nan)
    (hcosn : ops.cos NF.nan = NF.nan)
    (hacosn : ops.acos NF.nan = NF.nan)
    (hatann : ops.atan2 NF.nan NF.nan = NF.nan)
    (hx : (boostedTops ops tops tbars).px = NF.fin 0)
    (hy : (boostedTops ops tops tbars).py = NF.fin 0)
    (hz : (boostedTops ops tops tbars).pz = NF.fin 0) :
    kAxis ops tops tbars = nanV3 ∧
    (get_spincorr_vars ops tops tbars ls lbars).b1k = NF.nan ∧
    (get_spincorr_vars ops tops tbars ls lbars).b1r = NF.nan ∧
    (get_spincorr_vars ops tops tbars ls lbars).b1n = NF.nan ∧
    (get_spincorr_vars ops tops tbars ls lbars).b2k = NF.nan ∧
    (get_spincorr_vars ops tops tbars ls lbars).b2r = NF.nan ∧
    (get_spincorr_vars ops tops tbars ls lbars).b2n = NF.nan ∧
    (get_spincorr_vars ops tops tbars ls lbars).c_kk = NF.nan ∧
    (get_spincorr_vars ops tops tbars ls lbars).c_rr = NF.nan ∧
    (get_spincorr_vars ops tops tbars ls lbars).c_nn = NF.nan ∧
    (get_spincorr_vars ops tops tbars ls lbars).c_rk = NF.nan ∧
    (get_spincorr_vars ops tops tbars ls lbars).c_kn = NF.nan ∧
    (get_spincorr_vars ops tops tbars ls lbars).c_nr = NF.nan ∧
    (get_spincorr_vars ops tops tbars ls lbars).c_kr = NF.nan ∧
    (get_spincorr_vars ops tops tbars ls lbars).c_rn = NF.nan ∧
    (get_spincorr_vars ops tops tbars ls lbars).c_nk = NF.nan ∧
    (get_spincorr_vars ops tops tbars ls lbars).c_han = NF.nan ∧
    (get_spincorr_vars ops tops tbars ls lbars).c_hel = NF.nan := by
  have hk := kAxis_of_zero_momentum ops tops tbars hsq0 hx hy hz
  have hr := rAxis_of_zero_momentum ops tops tbars hsq0 hsqn hsinn hcosn hatann hx hy hz
  have hn := nAxis_of_zero_momentum ops tops tbars hsq0 hsqn hsinn hcosn hatann hx hy hz
  have hb1k : b1k ops tops tbars lbars = NF.nan := by
    unfold b1k; rw [hk]; exact cos_deltaangle_nanV3 ops _ hsqn hcosn hacosn
  have hb1r : b1r ops tops tbars lbars = NF.nan := by
    unfold b1r; rw [hr]; exact cos_deltaangle_nanV3 ops _ hsqn hcosn hacosn
  have hb1n : b1n ops tops tbars lbars = NF.nan := by
    unfold b1n; rw [hn]; exact cos_deltaangle_nanV3 ops _ hsqn hcosn hacosn
  have hb2k : b2k ops tops tbars ls = NF.nan := by
    unfold b2k; rw [hk, V3.smul_nanV3]; exact cos_deltaangle_nanV3 ops _ hsqn hcosn hacosn
  have hb2r : b2r ops tops tbars ls = NF.nan := by
    unfold b2r; rw [hr, V3.smul_nanV3]; exact cos_deltaangle_nanV3 ops _ hsqn hcosn hacosn
  have hb2n : b2n ops tops tbars ls = NF.nan := by
    unfold b2n; rw [hn, V3.smul_nanV3]; exact cos_deltaangle_nanV3 ops _ hsqn hcosn hacosn
  refine ⟨hk, hb1k, hb1r, hb1n, hb2k, hb2r, hb2n, ?_, ?_, ?_, ?_, ?_, ?_, ?_, ?_, ?_, ?_, ?_⟩ <;>
    simp [get_spincorr_vars, hb1k, hb1r, hb1n, hb2k, hb2r, hb2n]

/-- Concrete boost evaluation: boosting a particle at rest by the rest frame
of two at-rest particles is the identity (zero frame velocity). -/
lemma boostedTops_rest :
    boostedTops nanOps (restV4 173) (restV4 173) = restV4 173 := by
  unfold boostedTops ttbarFrame V4.add boostToRestFrameOf restV4
  norm_num

lemma nanOps_sqrt_zero : nanOps.sqrt (NF.fin 0) = NF.fin 0 := by
  show sqrtNF (NF.fin 0) = NF.fin 0
  norm_num [sqrtNF, NF.fin, ratSqrt]

/-! ## Claim theorems: spin-correlation engine -/

/-- C2 (counterexample): at the concrete event in which top, antitop, lepton
and antilepton are all at rest (so the boosted top has zero spatial
momentum), the engine's `b1k` and `c_hel` outputs are non-finite (NaN), not
finite numbers — refuting the claim that the clamping absorbs this edge case
and every one of the 18 observables is finite. -/
theorem C2_counterexample :
    (get_spincorr_vars nanOps (restV4 173) (restV4 173) (restV4 1) (restV4 1)).b1k = NF.nan ∧
    (get_spincorr_vars nanOps (restV4 173) (restV4 173) (restV4 1) (restV4 1)).c_hel = NF.nan := by
  have h := spincorr_nan_of_zero_momentum nanOps (restV4 173) (restV4 173) (restV4 1) (restV4 1)
    nanOps_sqrt_zero rfl rfl rfl rfl rfl
    (by rw [boostedTops_rest]; rfl) (by rw [boostedTops_rest]; rfl) (by rw [boostedTops_rest]; rfl)
  exact ⟨h.2.1, h.2.2.2.2.2.2.2.2.2.2.2.2.2.2.2.2.2⟩

/-- C2 (amended): the sine clamp does not absorb the zero-spatial-momentum
edge case.  For every event whose boosted top has zero spatial momentum and
any transcendental functions propagating non-finite values (as the IEEE ones
do), the unit-direction computation divides zero by zero, the `k` axis is
entirely non-finite, the clamp leaves the non-finite sine in place (its
comparison is `false`), and all six analyzers, all nine correlation products
and both derived combinations are non-finite (NaN); no exception is raised
(the computation is total). -/
theorem C2_zero_momentum_nan (ops : TransOps) (tops tbars ls lbars : V4)
    (hsq0 : ops.sqrt (NF.fin 0) = NF.fin 0)
    (hsqn : ops.sqrt NF.nan = NF.nan)
    (hsinn : ops.sin NF.nan = NF.nan)
    (hcosn : ops.cos NF.nan = NF.nan)
    (hacosn : ops.acos NF.nan = NF.nan)
    (hatann : ops.atan2 NF.nan NF.nan = NF.nan)
    (hx : (boostedTops ops tops tbars).px = NF.fin 0)
    (hy : (boostedTops ops tops tbars).py = NF.fin 0)
    (hz : (boostedTops ops tops tbars).pz = NF.fin 0) :
    kAxis ops tops tbars = nanV3 ∧
    (get_spincorr_vars ops tops tbars ls lbars).b1k = NF.nan ∧
    (get_spincorr_vars ops tops tbars ls lbars).b1r = NF.nan ∧
    (get_spincorr_vars ops tops tbars ls lbars).b1n = NF.nan ∧
    (get_spincorr_vars ops tops tbars ls lbars).b2k = NF.nan ∧
    (get_spincorr_vars ops tops tbars ls lbars).b2r = NF.nan ∧
    (get_spincorr_vars ops tops tbars ls lbars).b2n = NF.nan ∧
    (get_spincorr_vars ops tops tbars ls lbars).c_kk = NF.nan ∧
    (get_spincorr_vars ops tops tbars ls lbars).c_rr = NF.nan ∧
    (get_spincorr_vars ops tops tbars ls lbars).c_nn = NF.nan ∧
    (get_spincorr_vars ops tops tbars ls lbars).c_rk = NF.nan ∧
    (get_spincorr_vars ops tops tbars ls lbars).c_kn = NF.nan ∧
    (get_spincorr_vars ops tops tbars ls lbars).c_nr = NF.nan ∧
    (get_spincorr_vars ops tops tbars ls lbars).c_kr = NF.nan ∧
    (get_spincorr_vars ops tops tbars ls lbars).c_rn = NF.nan ∧
    (get_spincorr_vars ops tops tbars ls lbars).c_nk = NF.nan ∧
    (get_spincorr_vars ops tops tbars ls lbars).c_han = NF.nan ∧
    (get_spincorr_vars ops tops tbars ls lbars).c_hel = NF.nan :=
  spincorr_nan_of_zero_momentum ops tops tbars ls lbars
    hsq0 hsqn hsinn hcosn hacosn hatann hx hy hz

/-- C2 (witness): the amended theorem applied at the all-at-rest event with
the exact-point transcendental functions. -/
theorem C2_witness :
    kAxis nanOps (restV4 173) (restV4 173) = nanV3 ∧
    (get_spincorr_vars nanOps (restV4 173) (restV4 173) (restV4 1) (restV4 1)).b1k = NF.nan :=
  ⟨(C2_zero_momentum_nan nanOps (restV4 173) (restV4 173) (restV4 1) (restV4 1)
      nanOps_sqrt_zero rfl rfl rfl rfl rfl
      (by rw [boostedTops_rest]; rfl) (by rw [boostedTops_rest]; rfl) (by rw [boostedTops_rest]; rfl)).1,
   (C2_zero_momentum_nan nanOps (restV4 173) (restV4 173) (restV4 1) (restV4 1)
      nanOps_sqrt_zero rfl rfl rfl rfl rfl
      (by rw [boostedTops_rest]; rfl) (by rw [boostedTops_rest]; rfl) (by rw [boostedTops_rest]; rfl)).2.1⟩

/-- C4: for every event — where the scattering angle is a polar angle, so its
sine `s` is nonnegative — if `|s| < 1e-9` then line 57 replaces it by the
value `1e-9` of magnitude exactly `1e-9` and of the same (nonnegative) sign,
otherwise it leaves `s` unchanged; and the coefficient
`sign(cos(scattering_angle)) / |sin_scat_angle|` built from the clamped value
is always finite. -/
theorem C4_sin_clamp (s : ℚ) (hs : 0 ≤ s) :
    (s < eps9 →
      clampSinScat (NF.fin s) = NF.fin eps9 ∧
      NF.abs (clampSinScat (NF.fin s)) = NF.fin eps9 ∧ 0 ≤ eps9) ∧
    (eps9 ≤ s → clampSinScat (NF.fin s) = NF.fin s) ∧
    (∀ c : ℚ, ∃ q : ℚ,
      NF.sign (NF.fin c) / NF.abs (clampSinScat (NF.fin s)) = NF.fin q) := by
  have habs : |s| = s := abs_of_nonneg hs
  have heps : (0:ℚ) < eps9 := by norm_num [eps9]
  by_cases hlt : s < eps9
  · have hcl : clampSinScat (NF.fin s) = NF.fin eps9 := by
      simp only [clampSinScat, NF.select, NF.abs_fin, NF.lt_fin_fin, habs, hlt,
        decide_True, if_true]
    have habscl : NF.abs (clampSinScat (NF.fin s)) = NF.fin eps9 := by
      rw [hcl, NF.abs_fin, abs_of_pos heps]
    refine ⟨fun _ => ⟨hcl, habscl, le_of_lt heps⟩,
      fun hge => absurd hlt (not_lt.mpr hge), fun c => ?_⟩
    exact ⟨(if c < 0 then -1 else if 0 < c then 1 else 0) / eps9,
      by rw [habscl, NF.sign_fin, NF.fin_div_fin_ne _ _ (ne_of_gt heps)]⟩
  · have hge : eps9 ≤ s := not_lt.mp hlt
    have hpos : (0:ℚ) < s := lt_of_lt_of_le heps hge
    have hcl : clampSinScat (NF.fin s) = NF.fin s := by
      simp only [clampSinScat, NF.select, NF.abs_fin, NF.lt_fin_fin, habs, hlt,
        decide_False, Bool.false_eq_true, if_false]
    have habscl : NF.abs (clampSinScat (NF.fin s)) = NF.fin s := by
      rw [hcl, NF.abs_fin, abs_of_pos hpos]
    refine ⟨fun h => absurd h hlt, fun _ => hcl, fun c => ?_⟩
    exact ⟨(if c < 0 then -1 else if 0 < c then 1 else 0) / s,
      by rw [habscl, NF.sign_fin, NF.fin_div_fin_ne _ _ (ne_of_gt hpos)]⟩

/-- C4 (witness): the clamp theorem applied at the sine value `0` (a fully
forward scattering event): the value used in the denominator becomes exactly
`1e-9` and the coefficient is finite. -/
theorem C4_witness :
    clampSinScat (NF.fin 0) = NF.fin eps9 ∧
    ∃ q : ℚ, NF.sign (NF.fin 1) / NF.abs (clampSinScat (NF.fin 0)) = NF.fin q :=
  ⟨((C4_sin_clamp 0 le_rfl).1 (by norm_num [eps9])).1, (C4_sin_clamp 0 le_rfl).2.2 1⟩

/-- C5: the lepton is boosted into the ttbar rest frame and then into the
frame of the already-boosted antitop (two discrete sequential boosts, in that
order); the antilepton likewise, then into the frame of the already-boosted
top; and the analyzers are `b1x = cos(angle(boosted_lbar, x_axis))` with the
positive axis and `b2x = cos(angle(boosted_l, -x_axis))` with the negated
axis, for x in k, r, n. -/
theorem C5_boost_chain (ops : TransOps) (tops tbars ls lbars : V4) :
    boostedLs ops tops tbars ls =
      boostToRestFrameOf ops (boostToRestFrameOf ops ls (V4.add tops tbars))
        (boostToRestFrameOf ops tbars (V4.add tops tbars)) ∧
    boostedLbars ops tops tbars lbars =
      boostToRestFrameOf ops (boostToRestFrameOf ops lbars (V4.add tops tbars))
        (boostToRestFrameOf ops tops (V4.add tops tbars)) ∧
    (get_spincorr_vars ops tops tbars ls lbars).b1k =
      ops.cos (V4.deltaangle ops (boostedLbars ops tops tbars lbars) (kAxis ops tops tbars)) ∧
    (get_spincorr_vars ops tops tbars ls lbars).b1r =
      ops.cos (V4.deltaangle ops (boostedLbars ops tops tbars lbars) (rAxis ops tops tbars)) ∧
    (get_spincorr_vars ops tops tbars ls lbars).b1n =
      ops.cos (V4.deltaangle ops (boostedLbars ops tops tbars lbars) (nAxis ops tops tbars)) ∧
    (get_spincorr_vars ops tops tbars ls lbars).b2k =
      ops.cos (V4.deltaangle ops (boostedLs ops tops tbars ls)
        (V3.smul (NF.fin (-1)) (kAxis ops tops tbars))) ∧
    (get_spincorr_vars ops tops tbars ls lbars).b2r =
      ops.cos (V4.deltaangle ops (boostedLs ops tops tbars ls)
        (V3.smul (NF.fin (-1)) (rAxis ops tops tbars))) ∧
    (get_spincorr_vars ops tops tbars ls lbars).b2n =
      ops.cos (V4.deltaangle ops (boostedLs ops tops tbars ls)
        (V3.smul (NF.fin (-1)) (nAxis ops tops tbars))) :=
  ⟨rfl, rfl, rfl, rfl, rfl, rfl, rfl, rfl⟩

/-- C6: for every event (hence elementwise for every event batch) the nine
correlations are the products `c_xy = b1x * b2y`, and the derived
combinations satisfy `c_han = c_kk - c_rr - c_nn` and
`c_hel = -c_kk - c_rr - c_nn`, exactly. -/
theorem C6_products (ops : TransOps) (tops tbars ls lbars : V4) :
    (get_spincorr_vars ops tops tbars ls lbars).c_kk =
      (get_spincorr_vars ops tops tbars ls lbars).b1k *
        (get_spincorr_vars ops tops tbars ls lbars).b2k ∧
    (get_spincorr_vars ops tops tbars ls lbars).c_rr =
      (get_spincorr_vars ops tops tbars ls lbars).b1r *
        (get_spincorr_vars ops tops tbars ls lbars).b2r ∧
    (get_spincorr_vars ops tops tbars ls lbars).c_nn =
      (get_spincorr_vars ops tops tbars ls lbars).b1n *
        (get_spincorr_vars ops tops tbars ls lbars).b2n ∧
    (get_spincorr_vars ops tops tbars ls lbars).c_rk =
      (get_spincorr_vars ops tops tbars ls lbars).b1r *
        (get_spincorr_vars ops tops tbars ls lbars).b2k ∧
    (get_spincorr_vars ops tops tbars ls lbars).c_kn =
      (get_spincorr_vars ops tops tbars ls lbars).b1k *
        (get_spincorr_vars ops tops tbars ls lbars).b2n ∧
    (get_spincorr_vars ops tops tbars ls lbars).c_nr =
      (get_spincorr_vars ops tops tbars ls lbars).b1n *
        (get_spincorr_vars ops tops tbars ls lbars).b2r ∧
    (get_spincorr_vars ops tops tbars ls lbars).c_kr =
      (get_spincorr_vars ops tops tbars ls lbars).b1k *
        (get_spincorr_vars ops tops tbars ls lbars).b2r ∧
    (get_spincorr_vars ops tops tbars ls lbars).c_rn =
      (get_spincorr_vars ops tops tbars ls lbars).b1r *
        (get_spincorr_vars ops tops tbars ls lbars).b2n ∧
    (get_spincorr_vars ops tops tbars ls lbars).c_nk =
      (get_spincorr_vars ops tops tbars ls lbars).b1n *
        (get_spincorr_vars ops tops tbars ls lbars).b2k ∧
    (get_spincorr_vars ops tops tbars ls lbars).c_han =
      (get_spincorr_vars ops tops tbars ls lbars).c_kk -
        (get_spincorr_vars ops tops tbars ls lbars).c_rr -
        (get_spincorr_vars ops tops tbars ls lbars).c_nn ∧
    (get_spincorr_vars ops tops tbars ls lbars).c_hel =
      -(get_spincorr_vars ops tops tbars ls lbars).c_kk -
        (get_spincorr_vars ops tops tbars ls lbars).c_rr -
        (get_spincorr_vars ops tops tbars ls lbars).c_nn :=
  ⟨rfl, rfl, rfl, rfl, rfl, rfl, rfl, rfl, rfl, rfl, rfl⟩

/-! ## Helper lemmas: binned statistics -/

lemma upsert_of_fresh (l : List BinEntry) (k : ℚ) (v : List ℚ × List ℚ)
    (h : ∀ q ∈ l, q.1 ≠ k) :
    upsert l k v = l ++ [(k, v.1, v.2)] := by
  have hany : (l.any fun p => decide (p.1 = k)) = false := by
    rw [List.any_eq_false]
    intro p hp
    simpa using h p hp
  simp [upsert, hany]

/-- The dictionary fold of `SplitInBins` with pairwise-distinct midpoint keys
never overwrites: it is the plain list of per-midpoint entries. -/
lemma binsFold_gen (x data weight : List ℚ) (ms : List (ℚ × ℚ × ℚ)) :
    ∀ (acc : List BinEntry),
      (∀ m ∈ ms, ∀ q ∈ acc, q.1 ≠ m.1) →
      (ms.map (fun m => m.1)).Nodup →
      List.foldl (fun acc' m =>
          upsert acc' m.1 (maskFilter x data m.2.1 m.2.2, maskFilter x weight m.2.1 m.2.2)) acc ms =
        acc ++ ms.map (fun m => (m.1, maskFilter x data m.2.1 m.2.2, maskFilter x weight m.2.1 m.2.2)) := by
  induction ms with
  | nil => intro acc _ _; simp
  | cons m ms ih =>
    intro acc hdisj hnd
    have hnd2 : (m.1 :: ms.map (fun mm => mm.1)).Nodup := by
      simpa only [List.map_cons] using hnd
    have hnd' := List.nodup_cons.mp hnd2
    rw [List.foldl_cons,
      upsert_of_fresh _ _ _ (fun q hq => hdisj m (List.mem_cons_self m ms) q hq),
      ih (acc ++ [(m.1, maskFilter x data m.2.1 m.2.2, maskFilter x weight m.2.1 m.2.2)]) ?_ hnd'.2]
    · simp
    · intro m' hm' q hq
      rcases List.mem_append.mp hq with hqa | hqs
      · exact hdisj m' (List.mem_cons_of_mem _ hm') q hqa
      · have hq1 : q.1 = m.1 := by
          have hqe : q = (m.1, maskFilter x data m.2.1 m.2.2, maskFilter x weight m.2.1 m.2.2) := by
            simpa using hqs
          rw [hqe]
        rw [hq1]
        intro hEq
        exact hnd'.1 (hEq ▸ List.mem_map.mpr ⟨m', hm', rfl⟩)

/-- The edge list that `SplitInBins` returns, per bin specification. -/
lemma SplitInBins_edges (data x weight : List ℚ) :
    (∀ n, (SplitInBins data x weight (BinSpec.count n)).2 =
      linspaceQ ((Int.floor (listMin x) : ℤ) : ℚ) ((Int.ceil (listMax x) : ℤ) : ℚ) n) ∧
    (∀ es, (SplitInBins data x weight (BinSpec.edges es)).2 = es) :=
  ⟨fun _ => rfl, fun _ => rfl⟩

lemma SplitInBins_entries_fold (data x weight : List ℚ) (bins : BinSpec) :
    (SplitInBins data x weight bins).1 =
      List.foldl (fun acc' m => upsert acc' m.1
        (maskFilter x data m.2.1 m.2.2, maskFilter x weight m.2.1 m.2.2)) []
        (midEdges ((SplitInBins data x weight bins).2)) := by
  cases bins <;> rfl

/-- With pairwise-distinct midpoints, the `binned_data` dictionary is exactly
one entry per midpoint, in edge order, holding the mask-filtered data and
weights. -/
lemma SplitInBins_entries (data x weight : List ℚ) (bins : BinSpec)
    (hnd : ((midEdges ((SplitInBins data x weight bins).2)).map (fun m => m.1)).Nodup) :
    (SplitInBins data x weight bins).1 =
      (midEdges ((SplitInBins data x weight bins).2)).map
        (fun m => (m.1, maskFilter x data m.2.1 m.2.2, maskFilter x weight m.2.1 m.2.2)) := by
  rw [SplitInBins_entries_fold,
    binsFold_gen x data weight _ [] (by intro m _ q hq; simp at hq) hnd]
  simp

lemma midEdges_length (es : List ℚ) : (midEdges es).length = es.length - 1 := by
  simp only [midEdges, List.length_map, List.length_zip, List.length_tail]
  omega

lemma midEdges_cons_cons (a b : ℚ) (t : List ℚ) :
    midEdges (a :: b :: t) = ((a + b) / 2, a, b) :: midEdges (b :: t) := rfl

/-- Strictly ascending edges give strictly ascending midpoints. -/
lemma midEdges_keys_chain :
    ∀ (es : List ℚ), List.Chain' (· < ·) es →
      List.Chain' (· < ·) ((midEdges es).map (fun m => m.1))
  | [], _ => by simp [midEdges]
  | [a], _ => by simp [midEdges]
  | a :: b :: t, h => by
    obtain ⟨hab, htail⟩ := List.chain'_cons.mp h
    have ih := midEdges_keys_chain (b :: t) htail
    rw [midEdges_cons_cons, List.map_cons]
    cases t with
    | nil => simp [midEdges]
    | cons c t' =>
      rw [midEdges_cons_cons, List.map_cons] at ih ⊢
      refine List.chain'_cons.mpr ⟨?_, ih⟩
      have hbc : b < c := (List.chain'_cons.mp htail).1
      show (a + b) / 2 < (b + c) / 2
      linarith

lemma nodup_keys_of_chain (es : List ℚ) (h : List.Chain' (· < ·) es) :
    ((midEdges es).map (fun m => m.1)).Nodup :=
  (List.chain'_iff_pairwise.mp (midEdges_keys_chain es h)).imp fun hlt => ne_of_lt hlt

/-- Monotone bound on sorted edge lists, in `getD` form. -/
lemma chain_le_getD (es : List ℚ) (h : List.Chain' (· < ·) es) (i j : ℕ)
    (hij : i ≤ j) (hj : j < es.length) : es.getD i 0 ≤ es.getD j 0 := by
  have hi : i < es.length := lt_of_le_of_lt hij hj
  rw [List.getD_eq_getElem _ _ hi, List.getD_eq_getElem _ _ hj]
  rcases lt_or_eq_of_le hij with hlt | hEq
  · exact le_of_lt ((List.pairwise_iff_getElem.mp (List.chain'_iff_pairwise.mp h)) i j hi hj hlt)
  · subst hEq; exact le_refl _

lemma midEdges_getD (es : List ℚ) (i : ℕ) (hi : i + 1 < es.length) :
    (midEdges es).getD i (0, 0, 0) =
      ((es.getD i 0 + es.getD (i + 1) 0) / 2, es.getD i 0, es.getD (i + 1) 0) := by
  have hmi : i < (midEdges es).length := by rw [midEdges_length]; omega
  have hzi : i < (es.zip es.tail).length := by
    simpa [midEdges, List.length_map] using hmi
  have hti : i < es.tail.length := by
    rw [List.length_tail]; omega
  have hii : i < es.length := by omega
  rw [List.getD_eq_getElem _ _ hmi]
  simp only [midEdges, List.getElem_map, List.getElem_zip]
  rw [List.getElem_tail]
  rw [List.getD_eq_getElem _ _ hii, List.getD_eq_getElem _ _ hi]

lemma linspaceQ_length (a b : ℚ) (n : ℕ) : (linspaceQ a b n).length = n := by
  unfold linspaceQ
  rcases Nat.eq_zero_or_pos n with h0 | hpos
  · simp [h0]
  · rcases Nat.lt_or_ge n 2 with h1 | h2
    · have : n = 1 := by omega
      simp [this]
    · rw [if_neg (by omega), if_neg (by omega)]
      simp

lemma linspaceQ_getD (a b : ℚ) (n i : ℕ) (h2 : 2 ≤ n) (hi : i < n) :
    (linspaceQ a b n).getD i 0 = a + (i : ℚ) * (b - a) / ((n : ℚ) - 1) := by
  unfold linspaceQ
  rw [if_neg (by omega), if_neg (by omega)]
  rw [List.getD_eq_getElem _ _ (by simp [hi])]
  simp

lemma linspaceQ_chain (a b : ℚ) (n : ℕ) (hab : a < b) :
    List.Chain' (· < ·) (linspaceQ a b n) := by
  unfold linspaceQ
  rcases Nat.eq_zero_or_pos n with h0 | hpos
  · simp [h0]
  rcases Nat.lt_or_ge n 2 with h1 | h2
  · have : n = 1 := by omega
    simp [this]
  rw [if_neg (by omega), if_neg (by omega)]
  have hstep : (0:ℚ) < (b - a) / ((n : ℚ) - 1) := by
    apply div_pos (by linarith)
    have : (2:ℚ) ≤ (n:ℚ) := by exact_mod_cast h2
    linarith
  refine List.chain'_iff_pairwise.mpr ?_
  refine List.Pairwise.map _ ?_ (List.pairwise_lt_range n)
  intro i j hij
  have hc : (i:ℚ) < (j:ℚ) := by exact_mod_cast hij
  have := mul_lt_mul_of_pos_right hc hstep
  calc a + (i:ℚ) * (b - a) / ((n : ℚ) - 1)
      = a + (i:ℚ) * ((b - a) / ((n : ℚ) - 1)) := by ring
    _ < a + (j:ℚ) * ((b - a) / ((n : ℚ) - 1)) := by linarith
    _ = a + (j:ℚ) * (b - a) / ((n : ℚ) - 1) := by ring

lemma linspaceQ_le_last (a b : ℚ) (n : ℕ) (hab : a ≤ b) :
    ∀ q ∈ linspaceQ a b n, q ≤ b := by
  unfold linspaceQ
  rcases Nat.eq_zero_or_pos n with h0 | hpos
  · simp [h0]
  rcases Nat.lt_or_ge n 2 with h1 | h2
  · have : n = 1 := by omega
    simp [this, hab]
  rw [if_neg (by omega), if_neg (by omega)]
  intro q hq
  obtain ⟨i, hi, rfl⟩ := List.mem_map.mp hq
  have hin : i < n := List.mem_range.mp hi
  have hn1 : (0:ℚ) < (n : ℚ) - 1 := by
    have : (2:ℚ) ≤ (n:ℚ) := by exact_mod_cast h2
    linarith
  have hile : (i:ℚ) ≤ (n:ℚ) - 1 := by
    have : (i:ℚ) + 1 ≤ (n:ℚ) := by exact_mod_cast hin
    linarith
  have hnum : (i:ℚ) * (b - a) ≤ ((n:ℚ) - 1) * (b - a) :=
    mul_le_mul_of_nonneg_right hile (by linarith)
  have hdiv : (i:ℚ) * (b - a) / ((n : ℚ) - 1) ≤ ((n:ℚ) - 1) * (b - a) / ((n : ℚ) - 1) :=
    (div_le_div_iff_of_pos_right hn1).mpr hnum
  have hlast : ((n:ℚ) - 1) * (b - a) / ((n : ℚ) - 1) = b - a := by
    field_simp
  calc a + (i:ℚ) * (b - a) / ((n : ℚ) - 1) ≤ a + (b - a) := by
        rw [hlast] at hdiv; linarith
    _ = b := by ring

lemma linspaceQ_last (a b : ℚ) (n : ℕ) (h2 : 2 ≤ n) :
    (linspaceQ a b n).getD (n - 1) 0 = b := by
  rw [linspaceQ_getD a b n (n - 1) h2 (by omega)]
  have h1 : (1:ℕ) ≤ n := by omega
  have hc : ((n - 1 : ℕ) : ℚ) = (n : ℚ) - 1 := by
    push_cast [Nat.cast_sub h1]
    ring
  have hne : (n : ℚ) - 1 ≠ 0 := by
    have : (2:ℚ) ≤ (n:ℚ) := by exact_mod_cast h2
    linarith
  rw [hc]
  field_simp

lemma foldl_min_le_foldl_max :
    ∀ (l : List ℚ) (i j : ℚ), i ≤ j → l.foldl min i ≤ l.foldl max j
  | [], _, _, h => h
  | b :: l, i, j, h =>
    foldl_min_le_foldl_max l (min i b) (max j b)
      (le_trans (min_le_left i b) (le_trans h (le_max_left j b)))

lemma listMin_le_listMax : ∀ (x : List ℚ), x ≠ [] → listMin x ≤ listMax x
  | [], h => absurd rfl h
  | a :: t, _ => foldl_min_le_foldl_max t a a (le_refl a)

lemma getD_map_entry {β γ : Type} (f : β → γ) (l : List β) (i : ℕ)
    (h : i < l.length) (d : γ) (d' : β) : (l.map f).getD i d = f (l.getD i d') := by
  rw [List.getD_eq_getElem _ _ (by simpa using h), List.getElem_map,
    List.getD_eq_getElem _ _ h]

lemma ComputeStats_fields (sq : ℚ → ℚ) (x y weight : List ℚ) (bins : BinSpec) :
    (ComputeStats sq x y weight bins).bins =
      ((SplitInBins y x weight bins).1).map (fun e => e.1) ∧
    (ComputeStats sq x y weight bins).q84q16 =
      ((SplitInBins y x weight bins).1).map
        (fun e => if e.2.1.length < 5 then 0 else Q84Q16 e.2.1) ∧
    (ComputeStats sq x y weight bins).mean =
      ((SplitInBins y x weight bins).1).map
        (fun e => if e.2.1.length < 5 then 0 else weighted_mean e.2.1 e.2.2) ∧
    (ComputeStats sq x y weight bins).median =
      ((SplitInBins y x weight bins).1).map
        (fun e => if e.2.1.length < 5 then 0 else medianQ e.2.1) ∧
    (ComputeStats sq x y weight bins).variance =
      ((SplitInBins y x weight bins).1).map
        (fun e => if e.2.1.length < 5 then 0 else weighted_variance e.2.1 e.2.2) ∧
    (ComputeStats sq x y weight bins).rms =
      ((SplitInBins y x weight bins).1).map
        (fun e => if e.2.1.length < 5 then 0 else weighted_rms sq e.2.1 e.2.2) :=
  ⟨rfl, rfl, rfl, rfl, rfl, rfl⟩

lemma ComputeStats_bins_length (sq : ℚ → ℚ) (x y weight : List ℚ) (bins : BinSpec) :
    (ComputeStats sq x y weight bins).bins.length =
      ((SplitInBins y x weight bins).1).length := by
  rw [(ComputeStats_fields sq x y weight bins).1, List.length_map]

/-! ## Claim theorems: binned statistics engine -/

/-- C7: every bin of the binned dictionary whose event count is below 5 is
still present in the output — the result arrays all have one slot per bin,
the bin's midpoint appears in the `bins` array at its position — and all five
statistics at that position are exactly `0`. -/
theorem C7_sparse_bins (sq : ℚ → ℚ) (x y weight : List ℚ) (bins : BinSpec) (i : ℕ)
    (hi : i < ((SplitInBins y x weight bins).1).length)
    (hn : (((SplitInBins y x weight bins).1).getD i (0, [], [])).2.1.length < 5) :
    (ComputeStats sq x y weight bins).bins.length =
      ((SplitInBins y x weight bins).1).length ∧
    (ComputeStats sq x y weight bins).bins.getD i 1 =
      (((SplitInBins y x weight bins).1).getD i (0, [], [])).1 ∧
    (ComputeStats sq x y weight bins).q84q16.getD i 1 = 0 ∧
    (ComputeStats sq x y weight bins).mean.getD i 1 = 0 ∧
    (ComputeStats sq x y weight bins).median.getD i 1 = 0 ∧
    (ComputeStats sq x y weight bins).variance.getD i 1 = 0 ∧
    (ComputeStats sq x y weight bins).rms.getD i 1 = 0 := by
  obtain ⟨hb, hq, hm, hmed, hv, hr⟩ := ComputeStats_fields sq x y weight bins
  refine ⟨ComputeStats_bins_length sq x y weight bins, ?_, ?_, ?_, ?_, ?_, ?_⟩
  · rw [hb, getD_map_entry _ _ i hi 1 (0, [], [])]
  · rw [hq, getD_map_entry _ _ i hi 1 (0, [], [])]
    exact if_pos hn
  · rw [hm, getD_map_entry _ _ i hi 1 (0, [], [])]
    exact if_pos hn
  · rw [hmed, getD_map_entry _ _ i hi 1 (0, [], [])]
    exact if_pos hn
  · rw [hv, getD_map_entry _ _ i hi 1 (0, [], [])]
    exact if_pos hn
  · rw [hr, getD_map_entry _ _ i hi 1 (0, [], [])]
    exact if_pos hn

/-- C7 (witness): one bin `[0, 2)` holding 2 events — present with midpoint
`1`, and all five statistics `0`. -/
theorem C7_witness :
    (ComputeStats (fun q => q) [0, 1] [5, 6] [1, 1] (BinSpec.edges [0, 2])).bins.getD 0 1 = 1 ∧
    (ComputeStats (fun q => q) [0, 1] [5, 6] [1, 1] (BinSpec.edges [0, 2])).q84q16.getD 0 1 = 0 ∧
    (ComputeStats (fun q => q) [0, 1] [5, 6] [1, 1] (BinSpec.edges [0, 2])).mean.getD 0 1 = 0 ∧
    (ComputeStats (fun q => q) [0, 1] [5, 6] [1, 1] (BinSpec.edges [0, 2])).median.getD 0 1 = 0 ∧
    (ComputeStats (fun q => q) [0, 1] [5, 6] [1, 1] (BinSpec.edges [0, 2])).variance.getD 0 1 = 0 ∧
    (ComputeStats (fun q => q) [0, 1] [5, 6] [1, 1] (BinSpec.edges [0, 2])).rms.getD 0 1 = 0 := by
  have hent : (SplitInBins [5, 6] [0, 1] [1, 1] (BinSpec.edges [0, 2])).1 =
      [(1, [5, 6], [1, 1])] := by
    norm_num [SplitInBins, midEdges, upsert, maskFilter, binMask]
  have h := C7_sparse_bins (fun q => q) [0, 1] [5, 6] [1, 1] (BinSpec.edges [0, 2]) 0
    (by rw [hent]; norm_num) (by rw [hent]; norm_num)
  refine ⟨?_, h.2.2.1, h.2.2.2.1, h.2.2.2.2.1, h.2.2.2.2.2.1, h.2.2.2.2.2.2⟩
  rw [h.2.1, hent]
  norm_num

/-- C9: the weighted statistics return `0` when the weights sum to zero (the
guard of `weighted_mean`, `weighted_variance`, `weighted_rms`), and for a bin
of at least 5 events whose weights sum to zero, `ComputeStats` reports mean,
variance and rms as exactly `0` (no error is raised — the computation is
total, the zero-sum guard returning before any division). -/
theorem C9_zero_weight_sum (sq : ℚ → ℚ) (x y weight : List ℚ) (bins : BinSpec) (i : ℕ)
    (hi : i < ((SplitInBins y x weight bins).1).length)
    (h5 : 5 ≤ (((SplitInBins y x weight bins).1).getD i (0, [], [])).2.1.length)
    (hw : (((SplitInBins y x weight bins).1).getD i (0, [], [])).2.2.sum = 0) :
    weighted_mean (((SplitInBins y x weight bins).1).getD i (0, [], [])).2.1
      (((SplitInBins y x weight bins).1).getD i (0, [], [])).2.2 = 0 ∧
    weighted_variance (((SplitInBins y x weight bins).1).getD i (0, [], [])).2.1
      (((SplitInBins y x weight bins).1).getD i (0, [], [])).2.2 = 0 ∧
    weighted_rms sq (((SplitInBins y x weight bins).1).getD i (0, [], [])).2.1
      (((SplitInBins y x weight bins).1).getD i (0, [], [])).2.2 = 0 ∧
    (ComputeStats sq x y weight bins).mean.getD i 1 = 0 ∧
    (ComputeStats sq x y weight bins).variance.getD i 1 = 0 ∧
    (ComputeStats sq x y weight bins).rms.getD i 1 = 0 := by
  obtain ⟨hb, hq, hm, hmed, hv, hr⟩ := ComputeStats_fields sq x y weight bins
  have hmean : weighted_mean (((SplitInBins y x weight bins).1).getD i (0, [], [])).2.1
      (((SplitInBins y x weight bins).1).getD i (0, [], [])).2.2 = 0 := by
    unfold weighted_mean
    rw [if_pos hw]
  have hvar : weighted_variance (((SplitInBins y x weight bins).1).getD i (0, [], [])).2.1
      (((SplitInBins y x weight bins).1).getD i (0, [], [])).2.2 = 0 := by
    unfold weighted_variance
    rw [if_pos hw]
  have hrms : weighted_rms sq (((SplitInBins y x weight bins).1).getD i (0, [], [])).2.1
      (((SplitInBins y x weight bins).1).getD i (0, [], [])).2.2 = 0 := by
    unfold weighted_rms
    rw [if_pos hw]
  have hnot : ¬((((SplitInBins y x weight bins).1).getD i (0, [], [])).2.1.length < 5) :=
    not_lt.mpr h5
  refine ⟨hmean, hvar, hrms, ?_, ?_, ?_⟩
  · rw [hm, getD_map_entry _ _ i hi 1 (0, [], []), if_neg hnot, hmean]
  · rw [hv, getD_map_entry _ _ i hi 1 (0, [], []), if_neg hnot, hvar]
  · rw [hr, getD_map_entry _ _ i hi 1 (0, [], []), if_neg hnot, hrms]

/-- C9 (witness): a bin `[0, 1)` holding 5 events with weights
`[1, 1, 1, 1, -4]` (sum zero): mean, variance and rms are reported `0`. -/
theorem C9_witness :
    (ComputeStats (fun q => q) [0, 0, 0, 0, 0] [1, 2, 3, 4, 5] [1, 1, 1, 1, -4]
      (BinSpec.edges [0, 1])).mean.getD 0 1 = 0 ∧
    (ComputeStats (fun q => q) [0, 0, 0, 0, 0] [1, 2, 3, 4, 5] [1, 1, 1, 1, -4]
      (BinSpec.edges [0, 1])).variance.getD 0 1 = 0 ∧
    (ComputeStats (fun q => q) [0, 0, 0, 0, 0] [1, 2, 3, 4, 5] [1, 1, 1, 1, -4]
      (BinSpec.edges [0, 1])).rms.getD 0 1 = 0 := by
  have hent : (SplitInBins [1, 2, 3, 4, 5] [0, 0, 0, 0, 0] [1, 1, 1, 1, -4]
      (BinSpec.edges [0, 1])).1 = [(1/2, [1, 2, 3, 4, 5], [1, 1, 1, 1, -4])] := by
    norm_num [SplitInBins, midEdges, upsert, maskFilter, binMask]
  have h := C9_zero_weight_sum (fun q => q) [0, 0, 0, 0, 0] [1, 2, 3, 4, 5] [1, 1, 1, 1, -4]
    (BinSpec.edges [0, 1]) 0
    (by rw [hent]; norm_num) (by rw [hent]; norm_num) (by rw [hent]; norm_num)
  exact ⟨h.2.2.2.1, h.2.2.2.2.1, h.2.2.2.2.2⟩

/-- C8: for ascending edges, bin `i` of the binned dictionary holds exactly
the (value, weight) pairs whose binning coordinate `v` satisfies
`edge[i] ≤ v < edge[i+1]` (half-open, in list-comprehension form), and a
binning value strictly outside `[edge[0], edge[last]]` satisfies no bin's
interval condition, so it is dropped from every bin. -/
theorem C8_half_open_binning (data x weight es : List ℚ)
    (hchain : List.Chain' (· < ·) es)
    (hlen1 : x.length = data.length) (hlen2 : x.length = weight.length) :
    (∀ i, i + 1 < es.length →
      ((SplitInBins data x weight (BinSpec.edges es)).1).getD i (0, [], []) =
        ((es.getD i 0 + es.getD (i + 1) 0) / 2,
          ((x.zip data).filter
            (fun p => decide (es.getD i 0 ≤ p.1) && decide (p.1 < es.getD (i + 1) 0))).map
            (fun p => p.2),
          ((x.zip weight).filter
            (fun p => decide (es.getD i 0 ≤ p.1) && decide (p.1 < es.getD (i + 1) 0))).map
            (fun p => p.2))) ∧
    (∀ v : ℚ, (v < es.getD 0 0 ∨ es.getD (es.length - 1) 0 < v) →
      ∀ i, i + 1 < es.length → ¬(es.getD i 0 ≤ v ∧ v < es.getD (i + 1) 0)) := by
  constructor
  · intro i hi
    have hes : (SplitInBins data x weight (BinSpec.edges es)).2 = es := rfl
    have hnd := nodup_keys_of_chain es hchain
    have hent := SplitInBins_entries data x weight (BinSpec.edges es) (by rw [hes]; exact hnd)
    rw [hes] at hent
    have hmi : i < (midEdges es).length := by rw [midEdges_length]; omega
    rw [hent, getD_map_entry _ _ i hmi (0, [], []) (0, 0, 0), midEdges_getD es i hi]
    simp [maskFilter, binMask]
  · intro v hv i hi ⟨h1, h2⟩
    rcases hv with hlow | hhigh
    · have h0i : es.getD 0 0 ≤ es.getD i 0 :=
        chain_le_getD es hchain 0 i (Nat.zero_le i) (by omega)
      linarith
    · have hil : es.getD (i + 1) 0 ≤ es.getD (es.length - 1) 0 :=
        chain_le_getD es hchain (i + 1) (es.length - 1) (by omega) (by omega)
      linarith

/-- C8 (witness): edges `[0, 2, 4]`, binning values `[0, 1, 5]`: bin 0 holds
the two events with values in `[0, 2)`, and the value `5 > 4` meets no bin's
condition. -/
theorem C8_witness :
    ((SplitInBins [5, 6, 7] [0, 1, 5] [1, 1, 1] (BinSpec.edges [0, 2, 4])).1).getD 0 (0, [], []) =
      (1, [5, 6], [1, 1]) ∧
    ¬(([0, 2, 4] : List ℚ).getD 1 0 ≤ 5 ∧ (5:ℚ) < ([0, 2, 4] : List ℚ).getD 2 0) := by
  have h := C8_half_open_binning [5, 6, 7] [0, 1, 5] [1, 1, 1] [0, 2, 4]
    (by norm_num) rfl rfl
  constructor
  · rw [h.1 0 (by norm_num)]
    norm_num
  · exact h.2 5 (by norm_num) 1 (by norm_num)

lemma binMask_false_of_ge (lo hi v : ℚ) (h : hi ≤ v) : binMask lo hi v = false := by
  simp [binMask, not_lt.mpr h]

/-- C10: (a) for ascending edges, the membership test of line 95 is `false`
for the last edge value at every bin (the upper comparison is strict, and
every upper edge is at most the last edge); (b) for an integer `binSpec` with
an integer-valued maximum, the last constructed edge equals `ceil(max) = max`
(for at least two edges), and the events attaining the maximum satisfy no
bin's membership test. -/
theorem C10_max_excluded :
    (∀ (es : List ℚ), List.Chain' (· < ·) es → ∀ i, i + 1 < es.length →
      binMask (es.getD i 0) (es.getD (i + 1) 0) (es.getD (es.length - 1) 0) = false) ∧
    (∀ (data x weight : List ℚ) (n : ℕ) (k : ℤ), x ≠ [] → listMax x = (k : ℚ) →
      (2 ≤ n →
        ((SplitInBins data x weight (BinSpec.count n)).2).getD
          (((SplitInBins data x weight (BinSpec.count n)).2).length - 1) 0 = listMax x) ∧
      (∀ i, i + 1 < ((SplitInBins data x weight (BinSpec.count n)).2).length →
        binMask (((SplitInBins data x weight (BinSpec.count n)).2).getD i 0)
          (((SplitInBins data x weight (BinSpec.count n)).2).getD (i + 1) 0)
          (listMax x) = false)) := by
  constructor
  · intro es hchain i hi
    exact binMask_false_of_ge _ _ _
      (chain_le_getD es hchain (i + 1) (es.length - 1) (by omega) (by omega))
  · intro data x weight n k hne hmax
    have hes : (SplitInBins data x weight (BinSpec.count n)).2 =
        linspaceQ ((Int.floor (listMin x) : ℤ) : ℚ) ((Int.ceil (listMax x) : ℤ) : ℚ) n := rfl
    have hceil : ((Int.ceil (listMax x) : ℤ) : ℚ) = listMax x := by
      rw [hmax, Int.ceil_intCast]
    have hab : ((Int.floor (listMin x) : ℤ) : ℚ) ≤ ((Int.ceil (listMax x) : ℤ) : ℚ) :=
      le_trans (Int.floor_le _) (le_trans (listMin_le_listMax x hne) (Int.le_ceil _))
    constructor
    · intro h2
      rw [hes, linspaceQ_length, linspaceQ_last _ _ n h2, hceil]
    · intro i hi
      rw [hes, linspaceQ_length] at hi
      have h2 : 2 ≤ n := by omega
      have hi1 : i + 1 < (linspaceQ ((Int.floor (listMin x) : ℤ) : ℚ)
          ((Int.ceil (listMax x) : ℤ) : ℚ) n).length := by
        rw [linspaceQ_length]; omega
      have hmem : (linspaceQ ((Int.floor (listMin x) : ℤ) : ℚ)
            ((Int.ceil (listMax x) : ℤ) : ℚ) n).getD (i + 1) 0 ∈
          linspaceQ ((Int.floor (listMin x) : ℤ) : ℚ) ((Int.ceil (listMax x) : ℤ) : ℚ) n := by
        rw [List.getD_eq_getElem _ _ hi1]
        exact List.getElem_mem hi1
      have hle := linspaceQ_le_last _ _ n hab _ hmem
      rw [hes]
      exact binMask_false_of_ge _ _ _ (hle.trans_eq hceil)

/-- C10 (witness): binning values `[0, 2]` with integer `binSpec = 3`: the
edges are `[0, 1, 2]`, the last edge equals the maximum `2`, and the maximum
meets no bin's membership test. -/
theorem C10_witness :
    ((SplitInBins [0, 0] [0, 2] [1, 1] (BinSpec.count 3)).2).getD
      (((SplitInBins [0, 0] [0, 2] [1, 1] (BinSpec.count 3)).2).length - 1) 0 = listMax [0, 2] ∧
    binMask (((SplitInBins [0, 0] [0, 2] [1, 1] (BinSpec.count 3)).2).getD 1 0)
      (((SplitInBins [0, 0] [0, 2] [1, 1] (BinSpec.count 3)).2).getD 2 0)
      (listMax [0, 2]) = false := by
  have h := (C10_max_excluded).2 [0, 0] [0, 2] [1, 1] 3 2 (by simp)
    (by norm_num [listMax])
  refine ⟨h.1 (by norm_num), h.2 1 ?_⟩
  show 1 + 1 < (linspaceQ ((Int.floor (listMin [0, 2]) : ℤ) : ℚ)
    ((Int.ceil (listMax [0, 2]) : ℤ) : ℚ) 3).length
  rw [linspaceQ_length]
  norm_num

/-- C1 (counterexample): binning values `[0, 2]` with integer `binSpec = 3`
produce 2 result bins (`np.linspace` returns 3 edges, hence 2 intervals),
not 3 as claimed. -/
theorem C1_counterexample :
    (ComputeStats (fun q => q) [0, 2] [0, 0] [1, 1] (BinSpec.count 3)).bins.length ≠ 3 := by
  rw [ComputeStats_bins_length]
  have h2 : (SplitInBins [0, 0] [0, 2] [1, 1] (BinSpec.count 3)).1.length = 2 := by
    norm_num [SplitInBins, linspaceQ, listMin, listMax, midEdges, upsert, maskFilter, binMask,
      List.range_succ]
  omega

/-- C1 (amended): with explicit ascending edges the number of result bins is
`len(binSpec) - 1`; with a positive integer `binSpec = n` (and not all
binning values equal to one integer, so that `floor(min) < ceil(max)`) the
edges are `n` (not `n+1`) uniformly spaced points spanning
`[floor(min), ceil(max)]` and the number of result bins is `n - 1`, not `n`. -/
theorem C1_bin_count (sq : ℚ → ℚ) :
    (∀ (d x w es : List ℚ), List.Chain' (· < ·) es →
      (ComputeStats sq x d w (BinSpec.edges es)).bins.length = es.length - 1) ∧
    (∀ (d x w : List ℚ) (n : ℕ), 1 ≤ n →
      ((Int.floor (listMin x) : ℤ) : ℚ) < ((Int.ceil (listMax x) : ℤ) : ℚ) →
      (ComputeStats sq x d w (BinSpec.count n)).bins.length = n - 1) ∧
    (∀ (d x w : List ℚ) (n i : ℕ), 2 ≤ n → i < n →
      ((SplitInBins d x w (BinSpec.count n)).2).getD i 0 =
        ((Int.floor (listMin x) : ℤ) : ℚ) +
          (i : ℚ) * (((Int.ceil (listMax x) : ℤ) : ℚ) - ((Int.floor (listMin x) : ℤ) : ℚ)) /
            ((n : ℚ) - 1)) := by
  refine ⟨?_, ?_, ?_⟩
  · intro d x w es hchain
    rw [ComputeStats_bins_length,
      SplitInBins_entries d x w (BinSpec.edges es) (nodup_keys_of_chain es hchain),
      List.length_map]
    show (midEdges es).length = es.length - 1
    exact midEdges_length es
  · intro d x w n h1 hab
    rcases Nat.lt_or_ge n 2 with hn1 | hn2
    · have hn : n = 1 := by omega
      subst hn
      rw [ComputeStats_bins_length]
      rfl
    · have hchain := linspaceQ_chain ((Int.floor (listMin x) : ℤ) : ℚ)
        ((Int.ceil (listMax x) : ℤ) : ℚ) n hab
      rw [ComputeStats_bins_length,
        SplitInBins_entries d x w (BinSpec.count n) (nodup_keys_of_chain _ hchain),
        List.length_map]
      show (midEdges (linspaceQ _ _ n)).length = n - 1
      rw [midEdges_length, linspaceQ_length]
  · intro d x w n i h2 hi
    show (linspaceQ _ _ n).getD i 0 = _
    exact linspaceQ_getD _ _ n i h2 hi

/-- C1 (witness): explicit edges `[0, 1, 2]` give 2 bins; integer
`binSpec = 3` on binning values `[0, 2]` gives 2 bins with middle edge `1`. -/
theorem C1_witness :
    (ComputeStats (fun q => q) [0, 2] [0, 0] [1, 1] (BinSpec.edges [0, 1, 2])).bins.length = 2 ∧
    (ComputeStats (fun q => q) [0, 2] [0, 0] [1, 1] (BinSpec.count 3)).bins.length = 2 ∧
    ((SplitInBins [0, 0] [0, 2] [1, 1] (BinSpec.count 3)).2).getD 1 0 = 1 := by
  obtain ⟨p1, p2, p3⟩ := C1_bin_count (fun q => q)
  refine ⟨by simpa using p1 [0, 0] [0, 2] [1, 1] [0, 1, 2] (by norm_num), ?_, ?_⟩
  · have := p2 [0, 0] [0, 2] [1, 1] 3 (by norm_num) (by norm_num [listMin, listMax])
    simpa using this
  · have := p3 [0, 0] [0, 2] [1, 1] 3 1 (by norm_num) (by norm_num)
    rw [this]
    norm_num [listMin, listMax]

/-- C3 (counterexample): with binning and observed values
`[10, 20, 30, 40, 50]`, unit weights and integer `binSpec = 1`, the result
has zero bins, not the single bin `[10, 50]` with mean 30 that the claim
describes (`np.linspace(10, 50, 1)` yields the single edge `[10]` and hence
no interval). -/
theorem C3_counterexample :
    (ComputeStats (fun q => q) [10, 20, 30, 40, 50] [10, 20, 30, 40, 50] [1, 1, 1, 1, 1]
      (BinSpec.count 1)).bins.length ≠ 1 := by
  have h : (ComputeStats (fun q => q) [10, 20, 30, 40, 50] [10, 20, 30, 40, 50] [1, 1, 1, 1, 1]
      (BinSpec.count 1)).bins = [] := rfl
  rw [h]
  simp

/-- C3 (amended): that call produces zero bins: every one of the six output
arrays is empty (a single linspace edge yields no bin interval, so the
dictionary is empty and no statistics are computed). -/
theorem C3_single_bin_empty (sq : ℚ → ℚ) :
    ComputeStats sq [10, 20, 30, 40, 50] [10, 20, 30, 40, 50] [1, 1, 1, 1, 1]
      (BinSpec.count 1) = ⟨[], [], [], [], [], []⟩ := rfl

end TopReco

